import Mathlib

/-!
A verification model of the A* grid pathfinder implemented in `A*.cpp`.

The program works on a `vector<vector<int>>` occupancy grid (0 = walkable) and
searches from a start coordinate to a goal coordinate.  Heap nodes are
allocated with `new` and the open set is a
`priority_queue<Node *, vector<Node *>, greater<Node *>>`, whose comparator
`greater<Node *>` orders raw pointer values.  We therefore model the heap as an
arena: nodes that are inserted into the `allNodes` registry live in a list in
allocation order, and an address assignment `addr : Nat → Nat` (a parameter of
the model, since C++ leaves object addresses unspecified) gives the machine
address of each arena slot.  Popping the queue removes the element with the
smallest address, exactly as `greater<Node *>` does.  Parent pointers become
arena indices.  `double` costs stay integral throughout the program (`g` starts
at 0 and grows by 1, `h` is a Manhattan distance), so they are modelled as
naturals, which doubles represent exactly at these magnitudes.
-/

namespace AStar

/-- A cell coordinate, mirroring the `pair<int, int>` used by the program. -/
abbrev Coord := Int × Int

/-- The occupancy grid `vector<vector<int>>`; value `0` means walkable. -/
abbrev Grid := List (List Int)

/-- Mirrors `struct Node` (A*.cpp lines 11-26).  `parent` is the arena index of
the predecessor node, modelling the `Node *parent` pointer. -/
structure Node where
  x : Int
  y : Int
  g : Nat
  h : Nat
  f : Nat
  parent : Option Nat
deriving DecidableEq

/-- The `Node` constructor (line 18): `f` is initialised to `g + h`. -/
def mkNode (x y : Int) (g h : Nat) (parent : Option Nat) : Node :=
  { x := x, y := y, g := g, h := h, f := g + h, parent := parent }

/-- Models `int rows = grid.size()` (line 52). -/
def rowsOf (grid : Grid) : Nat := grid.length

/-- Models `int cols = grid[0].size()` (line 53); the program reads row 0 without a
guard. -/
def colsOf (grid : Grid) : Nat := (grid[0]?.getD []).length

/-- The cell read `grid[newX][newY] == 0` of line 65, evaluated once the bounds
guard in front of it has passed. -/
def cellIsZero (grid : Grid) (x y : Int) : Bool :=
  (grid[x.toNat]?.getD [])[y.toNat]? == some 0

/-- The whole guard of line 65: the candidate cell is inside the grid and
walkable. -/
def okCell (grid : Grid) (x y : Int) : Bool :=
  decide (0 ≤ x) && decide (x < (rowsOf grid : Int)) &&
    decide (0 ≤ y) && decide (y < (colsOf grid : Int)) && cellIsZero grid x y

/-- Models `get_neighbors` (lines 47-72): for each direction up, down, left, right, in
that order, append a freshly constructed node (`new Node(newX, newY)`, so
`g = h = f = 0` and no parent) whenever the guard passes. -/
def get_neighbors (node : Node) (grid : Grid) : List Node :=
  let directions : List (Int × Int) := [(-1, 0), (1, 0), (0, -1), (0, 1)]
  directions.foldl (fun neighbors dir =>
    let newX := node.x + dir.1
    let newY := node.y + dir.2
    if okCell grid newX newY then neighbors ++ [mkNode newX newY 0 0 none]
    else neighbors) []

/-- Models `heuristic` (lines 75-78): Manhattan distance between two nodes. -/
def heuristic (a b : Node) : Nat := (a.x - b.x).natAbs + (a.y - b.y).natAbs

/-- The `while (node)` walk of `reconstruct_path` (lines 84-88), with explicit
fuel.  The fuel is a modelling device only: parent indices strictly decrease,
so the fuel used by `reconstruct_path` below never runs out. -/
def reconstruct_walk (arena : List Node) : Nat → Option Nat → List Coord
  | _, none => []
  | 0, some _ => []
  | fuel + 1, some i =>
    match arena[i]? with
    | none => []
    | some n => (n.x, n.y) :: reconstruct_walk arena fuel n.parent

/-- Models `reconstruct_path` (lines 81-91): walk the parent links from the given
arena index, collecting coordinates goal-first, then reverse. -/
def reconstruct_path (arena : List Node) (i : Nat) : List Coord :=
  (reconstruct_walk arena (i + 1) (some i)).reverse

/-- The search state: `arena` lists every node ever inserted into the
`allNodes` registry, in allocation order (the `unordered_map` keyed by
coordinates holds exactly these nodes and is never overwritten, see the lemmas
below); `openSet` holds the arena indices of the nodes currently in the
priority queue. -/
structure AState where
  arena : List Node
  openSet : List Nat
deriving DecidableEq

/-- Models `allNodes.find(node)` with the coordinate-based `NodeEqual` (lines 38-44):
look up the registry entry that has the given coordinates. -/
def lookupCoord (arena : List Node) (x y : Int) : Option Node :=
  arena.find? (fun n => n.x == x && n.y == y)

/-- Models `openSet.top()` followed by `openSet.pop()` (lines 111-112).  The queue's
comparator is `greater<Node *>`, which orders raw pointer values, so the popped
element is the live node with the smallest machine address; `addr` assigns the
addresses.  Returns the popped arena index and the remaining queue. -/
def popMin (addr : Nat → Nat) : List Nat → Option (Nat × List Nat)
  | [] => none
  | i :: rest =>
    match popMin addr rest with
    | none => some (i, [])
    | some (j, rest') => if addr i ≤ addr j then some (i, rest) else some (j, i :: rest')

/-- Lines 127-141: processing of one generated neighbor of the popped node
`current`, which sits at arena index `i` and has cost `curG`.  Note that the
source's test `tentative_g < neighbor->g` reads the `g` of the freshly
constructed neighbor object (always 0), and that is modelled faithfully here:
`nb` is the fresh node produced by `get_neighbors`. -/
def expandNeighbor (goal : Coord) (i : Nat) (curG : Nat) (st : AState) (nb : Node) : AState :=
  let tentative_g := curG + 1
  if (lookupCoord st.arena nb.x nb.y).isNone || decide (tentative_g < nb.g) then
    let hh := heuristic nb (mkNode goal.1 goal.2 0 0 none)
    let newNode : Node :=
      { x := nb.x, y := nb.y, g := tentative_g, h := hh, f := tentative_g + hh,
        parent := some i }
    { arena := st.arena ++ [newNode], openSet := st.openSet ++ [st.arena.length] }
  else st

/-- One iteration of the main loop (lines 109-143) viewed as a state
transformer; iterations that return (goal reached) or find the queue empty
leave the state unchanged here, so that intermediate loop states can be
inspected. -/
def stepState (grid : Grid) (goal : Coord) (addr : Nat → Nat) (st : AState) : AState :=
  match popMin addr st.openSet with
  | none => st
  | some (i, rest) =>
    match st.arena[i]? with
    | none => st
    | some current =>
      if current.x == goal.1 && current.y == goal.2 then st
      else
        (get_neighbors current grid).foldl (expandNeighbor goal i current.g)
          { arena := st.arena, openSet := rest }

/-- Iterate `stepState`. -/
def runSteps (grid : Grid) (goal : Coord) (addr : Nat → Nat) : Nat → AState → AState
  | 0, st => st
  | k + 1, st => runSteps grid goal addr k (stepState grid goal addr st)

/-- The main loop of `a_star` (lines 109-151), with explicit fuel; `none` means
the fuel ran out, which is shown impossible for the fuel that `a_star` passes
(claim C4). -/
def a_starAux (grid : Grid) (goal : Coord) (addr : Nat → Nat) : Nat → AState → Option (List Coord)
  | 0, _ => none
  | fuel + 1, st =>
    match popMin addr st.openSet with
    | none => some []
    | some (i, rest) =>
      match st.arena[i]? with
      | none => some []
      | some current =>
        if current.x == goal.1 && current.y == goal.2 then
          some (reconstruct_path st.arena i)
        else
          a_starAux grid goal addr fuel
            ((get_neighbors current grid).foldl (expandNeighbor goal i current.g)
              { arena := st.arena, openSet := rest })

/-- Lines 97 and 105-106: the start node `new Node(start.first, start.second)`
with default `g = h = f = 0` and no parent, pushed onto the open set and into
the registry. -/
def initState (start : Coord) : AState :=
  { arena := [mkNode start.1 start.2 0 0 none], openSet := [0] }

/-- Models `a_star` (lines 94-152).  The fuel `rows * cols + 2` dominates the measure
`|openSet| + |in-bounds cells not yet registered|`, which strictly decreases at
every loop iteration (claim C4). -/
def a_star (grid : Grid) (start goal : Coord) (addr : Nat → Nat) : List Coord :=
  (a_starAux grid goal addr (rowsOf grid * colsOf grid + 2) (initState start)).getD []

/-! ### Specification-side notions -/

/-- Two coordinates are orthogonally adjacent: exactly one unit step apart. -/
def adjC (a b : Coord) : Prop := (a.1 - b.1).natAbs + (a.2 - b.2).natAbs = 1

instance (a b : Coord) : Decidable (adjC a b) :=
  inferInstanceAs (Decidable ((a.1 - b.1).natAbs + (a.2 - b.2).natAbs = 1))

/-- Consecutive coordinates of the list are orthogonally adjacent. -/
def chainAdjB : List Coord → Bool
  | [] => true
  | [_] => true
  | a :: b :: t => decide (adjC a b) && chainAdjB (b :: t)

/-- Modelled from the spec (§8): a valid unit-step route - it starts at `s`,
ends at `g`, consecutive coordinates are orthogonally adjacent and every cell
on it is in bounds and walkable.  This is the specification-side yardstick used
to measure the path the program returns (claim C1). -/
def IsStepPath (grid : Grid) (s g : Coord) (p : List Coord) : Bool :=
  p.head? == some s && p.getLast? == some g && chainAdjB p &&
    p.all (fun c => okCell grid c.1 c.2)

/-- One step of the search graph: the target cell is orthogonally adjacent, in
bounds and walkable.  This is exactly the edge relation that `get_neighbors`
explores. -/
def stepRel (grid : Grid) (a b : Coord) : Prop := adjC a b ∧ okCell grid b.1 b.2 = true

/-- Reachability in the `get_neighbors` graph. -/
def Reach (grid : Grid) (s c : Coord) : Prop := Relation.ReflTransGen (stepRel grid) s c

/-- Every row has the length that the program reads off row 0. -/
def Rectangular (grid : Grid) : Prop := ∀ row ∈ grid, row.length = colsOf grid

/-! ### Concrete inputs used by the counterexample runs -/

/-- A 3 × 2 grid of walkable cells. -/
def gridA : Grid := [[0, 0], [0, 0], [0, 0]]

/-- An address assignment under which every later allocation receives a
smaller machine address than every earlier one - a behaviour the C++ abstract
machine permits, since it promises nothing about the relative order of
distinct allocations. -/
def addrDesc : Nat → Nat := fun i => 100 - i

/-- The `f` value of the node at arena index `i`. -/
def fAt (st : AState) (i : Nat) : Option Nat := st.arena[i]?.map Node.f

/-- The `g` value of the node at arena index `i`. -/
def gAt (st : AState) (i : Nat) : Option Nat := st.arena[i]?.map Node.g

/-- The `g` value the registry currently records for a coordinate. -/
def regG (st : AState) (x y : Int) : Option Nat := (lookupCoord st.arena x y).map Node.g

/-! ### Termination measure -/

/-- The in-bounds cells whose coordinates are not yet in the registry.  Every
push of the loop registers one such cell, so this set shrinks by one per push. -/
def freeCells (grid : Grid) (arena : List Node) : Finset (Nat × Nat) :=
  (Finset.range (rowsOf grid) ×ˢ Finset.range (colsOf grid)).filter
    (fun p => (lookupCoord arena (p.1 : Int) (p.2 : Int)).isNone = true)

/-- The loop measure: open-set size plus number of unregistered in-bounds
cells.  It strictly decreases at every iteration of the main loop. -/
def meas (grid : Grid) (st : AState) : Nat :=
  st.openSet.length + (freeCells grid st.arena).card

/-! ### Checked-access model (claim C10)

The definitions below repeat the search, but every `vector::operator[]` access
is replaced by a checked access that fails (returns `none`) when the index is
out of bounds - i.e. whenever the corresponding C++ access would be undefined
behaviour. -/

/-- A checked `grid[x][y]`: fails unless `0 ≤ x < grid.size()` and
`0 ≤ y < grid[x].size()`. -/
def readCellC (grid : Grid) (x y : Int) : Option Int :=
  if 0 ≤ x && 0 ≤ y then grid[x.toNat]?.bind (fun row => row[y.toNat]?) else none

/-- Variant of `get_neighbors` with checked accesses: reading `grid[0]` for the column
count fails on an empty grid, and each guarded cell read is checked. -/
def get_neighborsC (node : Node) (grid : Grid) : Option (List Node) :=
  match grid[0]? with
  | none => none
  | some row0 =>
    let rows : Int := grid.length
    let cols : Int := row0.length
    [((-1 : Int), (0 : Int)), (1, 0), (0, -1), (0, 1)].foldl (fun acc dir =>
      acc.bind (fun neighbors =>
        let newX := node.x + dir.1
        let newY := node.y + dir.2
        if decide (0 ≤ newX) && decide (newX < rows) &&
            decide (0 ≤ newY) && decide (newY < cols) then
          match readCellC grid newX newY with
          | none => none
          | some v => some (if v == 0 then neighbors ++ [mkNode newX newY 0 0 none]
                            else neighbors)
        else some neighbors)) (some [])

/-- The main loop with checked grid accesses.  The outer `none` means an
out-of-bounds access happened; `some none` means the fuel ran out. -/
def a_starAuxC (grid : Grid) (goal : Coord) (addr : Nat → Nat) :
    Nat → AState → Option (Option (List Coord))
  | 0, _ => some none
  | fuel + 1, st =>
    match popMin addr st.openSet with
    | none => some (some [])
    | some (i, rest) =>
      match st.arena[i]? with
      | none => some (some [])
      | some current =>
        if current.x == goal.1 && current.y == goal.2 then
          some (some (reconstruct_path st.arena i))
        else
          match get_neighborsC current grid with
          | none => none
          | some nbs =>
            a_starAuxC grid goal addr fuel
              (nbs.foldl (expandNeighbor goal i current.g)
                { arena := st.arena, openSet := rest })

/-- Variant of `a_star` with checked grid accesses: `none` means the search performed an
out-of-bounds access. -/
def a_starC (grid : Grid) (start goal : Coord) (addr : Nat → Nat) : Option (List Coord) :=
  (a_starAuxC grid goal addr (rowsOf grid * colsOf grid + 2) (initState start)).map
    (fun r => r.getD [])

/-! ### The search invariant -/

/-- Invariant of the main loop, relating the arena to the grid and the start
coordinate.  `root`: slot 0 holds the start node.  `parentStep`: every other
slot was filled from an earlier slot (its predecessor), records an in-bounds
walkable cell orthogonally adjacent to the predecessor's cell, and its `g` is
the predecessor's `g` plus one.  `uniq`: no coordinate occupies two slots.
`reachAll`: every registered coordinate is reachable from the start in the
`get_neighbors` graph. -/
structure Inv (grid : Grid) (start : Coord) (st : AState) : Prop where
  root : st.arena[0]? = some (mkNode start.1 start.2 0 0 none)
  parentStep : ∀ (i : Nat) (n : Node), st.arena[i]? = some n → i ≠ 0 →
    ∃ (j : Nat) (m : Node), j < i ∧ n.parent = some j ∧ st.arena[j]? = some m ∧
      adjC (m.x, m.y) (n.x, n.y) ∧ okCell grid n.x n.y = true ∧ n.g = m.g + 1
  uniq : ∀ (i j : Nat) (ni nj : Node), st.arena[i]? = some ni → st.arena[j]? = some nj →
    ni.x = nj.x → ni.y = nj.y → i = j
  reachAll : ∀ (i : Nat) (n : Node), st.arena[i]? = some n → Reach grid start (n.x, n.y)

/-! ### Helper lemmas about the trivial run where start equals goal -/

/-- With start = goal the very first pop returns the start node and the goal
check succeeds at once, before any grid access; any positive fuel suffices. -/
lemma a_starAux_self (grid : Grid) (p : Coord) (addr : Nat → Nat) (fuel : Nat) :
    a_starAux grid p addr (fuel + 1) (initState p) = some [p] := by
  simp [a_starAux, initState, popMin, reconstruct_path, reconstruct_walk, mkNode]

/-- Equality `a_star grid p p addr = [p]` holds for every grid and address order. -/
lemma a_star_self (grid : Grid) (p : Coord) (addr : Nat → Nat) :
    a_star grid p p addr = [p] := by
  have h := a_starAux_self grid p addr (rowsOf grid * colsOf grid + 1)
  unfold a_star
  rw [show rowsOf grid * colsOf grid + 2 = rowsOf grid * colsOf grid + 1 + 1 from rfl, h]
  rfl

/-! ### Properties of the queue pop -/

/-- Popping a non-empty queue always yields an element. -/
lemma popMin_ne_none (addr : Nat → Nat) (a : Nat) (t : List Nat) :
    popMin addr (a :: t) ≠ none := by
  cases h : popMin addr t with
  | none => simp [popMin, h]
  | some p =>
    obtain ⟨j, r⟩ := p
    by_cases hle : addr a ≤ addr j <;> simp [popMin, h, hle]

/-- Popping removes exactly one element. -/
lemma popMin_length (addr : Nat → Nat) :
    ∀ (l : List Nat) (i : Nat) (rest : List Nat),
      popMin addr l = some (i, rest) → rest.length + 1 = l.length := by
  intro l
  induction l with
  | nil => intro i rest h; simp [popMin] at h
  | cons a t ih =>
    intro i rest h
    cases ht : popMin addr t with
    | none =>
      have hnil : t = [] := by
        cases t with
        | nil => rfl
        | cons b u => exact absurd ht (popMin_ne_none addr b u)
      subst hnil
      simp [popMin] at h
      simp [← h.2]
    | some p =>
      obtain ⟨j, r⟩ := p
      by_cases hle : addr a ≤ addr j
      · simp [popMin, ht, hle] at h
        simp [← h.2]
      · simp [popMin, ht, hle] at h
        have := ih j r ht
        simp [← h.2, ← this]

/-- The popped element and the remaining ones all come from the queue. -/
lemma popMin_mem (addr : Nat → Nat) :
    ∀ (l : List Nat) (i : Nat) (rest : List Nat),
      popMin addr l = some (i, rest) → i ∈ l ∧ ∀ x ∈ rest, x ∈ l := by
  intro l
  induction l with
  | nil => intro i rest h; simp [popMin] at h
  | cons a t ih =>
    intro i rest h
    cases ht : popMin addr t with
    | none =>
      simp [popMin, ht] at h
      obtain ⟨h1, h2⟩ := h
      subst h1; subst h2
      exact ⟨List.mem_cons_self a t, by simp⟩
    | some p =>
      obtain ⟨j, r⟩ := p
      have hmem := ih j r ht
      by_cases hle : addr a ≤ addr j
      · simp [popMin, ht, hle] at h
        obtain ⟨h1, h2⟩ := h
        subst h1; subst h2
        exact ⟨List.mem_cons_self a t, fun x hx => List.mem_cons_of_mem a hx⟩
      · simp [popMin, ht, hle] at h
        obtain ⟨h1, h2⟩ := h
        subst h1; subst h2
        refine ⟨List.mem_cons_of_mem a hmem.1, fun x hx => ?_⟩
        rcases List.mem_cons.mp hx with hx | hx
        · simp [hx]
        · exact List.mem_cons_of_mem a (hmem.2 x hx)

/-! ### Properties of the registry lookup -/

/-- Unfolding the registry lookup by one node. -/
lemma lookupCoord_cons (a : Node) (arena : List Node) (x y : Int) :
    lookupCoord (a :: arena) x y =
      if a.x == x && a.y == y then some a else lookupCoord arena x y := by
  simp only [lookupCoord, List.find?]
  cases h : (a.x == x && a.y == y) <;> simp [h]

/-- Looking a coordinate up after appending one node. -/
lemma lookupCoord_append (arena : List Node) (n : Node) (x y : Int) :
    lookupCoord (arena ++ [n]) x y =
      match lookupCoord arena x y with
      | some m => some m
      | none => if n.x == x && n.y == y then some n else none := by
  induction arena with
  | nil =>
    rw [List.nil_append, lookupCoord_cons]
    have h0 : lookupCoord ([] : List Node) x y = none := rfl
    rw [h0]
  | cons a t ih =>
    rw [List.cons_append, lookupCoord_cons, lookupCoord_cons]
    by_cases h : (a.x == x && a.y == y) = true
    · simp [h]
    · simp only [h, if_false, Bool.false_eq_true, if_neg, not_false_iff]
      exact ih

/-- A failed lookup means no registered node carries the coordinate. -/
lemma lookupCoord_eq_none {arena : List Node} {x y : Int}
    (h : lookupCoord arena x y = none) :
    ∀ m ∈ arena, ¬(m.x = x ∧ m.y = y) := by
  intro m hm
  have hfind := List.find?_eq_none.mp h m hm
  simpa using hfind

/-! ### Characterising `get_neighbors` -/

/-- Restates `get_neighbors` with its let-bindings inlined. -/
lemma get_neighbors_eq_fold (node : Node) (grid : Grid) :
    get_neighbors node grid =
      ([(-1, 0), (1, 0), (0, -1), (0, 1)] : List (Int × Int)).foldl (fun neighbors dir =>
        if okCell grid (node.x + dir.1) (node.y + dir.2) then
          neighbors ++ [mkNode (node.x + dir.1) (node.y + dir.2) 0 0 none]
        else neighbors) [] := rfl

/-- Membership in the direction fold. -/
lemma mem_foldl_dirs (node : Node) (grid : Grid) :
    ∀ (dirs : List (Int × Int)) (acc : List Node) (nb : Node),
      (nb ∈ dirs.foldl (fun neighbors dir =>
        if okCell grid (node.x + dir.1) (node.y + dir.2) then
          neighbors ++ [mkNode (node.x + dir.1) (node.y + dir.2) 0 0 none]
        else neighbors) acc) ↔
      (nb ∈ acc ∨ ∃ d ∈ dirs, okCell grid (node.x + d.1) (node.y + d.2) = true ∧
        nb = mkNode (node.x + d.1) (node.y + d.2) 0 0 none) := by
  intro dirs
  induction dirs with
  | nil => simp
  | cons d t ih =>
    intro acc nb
    simp only [List.foldl_cons]
    rw [ih]
    simp only [List.mem_cons, exists_eq_or_imp]
    by_cases h : okCell grid (node.x + d.1) (node.y + d.2) = true
    · rw [if_pos h]
      simp only [List.mem_append, List.mem_singleton, h, true_and]
      tauto
    · rw [if_neg h]
      simp only [Bool.not_eq_true] at h
      simp [h]

/-- Every generated neighbor is a fresh default node on an in-bounds walkable
cell orthogonally adjacent to the expanded node. -/
lemma mem_get_neighbors {node : Node} {grid : Grid} {nb : Node}
    (h : nb ∈ get_neighbors node grid) :
    nb.g = 0 ∧ nb.parent = none ∧ okCell grid nb.x nb.y = true ∧
      adjC (node.x, node.y) (nb.x, nb.y) := by
  rw [get_neighbors_eq_fold, mem_foldl_dirs] at h
  rcases h with h | ⟨d, hd, hok, rfl⟩
  · simp at h
  · refine ⟨rfl, rfl, hok, ?_⟩
    fin_cases hd <;> simp [adjC, mkNode]

/-! ### The measure decreases -/

/-- One-step unfolding of the main loop at positive fuel. -/
lemma a_starAux_succ (grid : Grid) (goal : Coord) (addr : Nat → Nat) (fuel : Nat)
    (st : AState) :
    a_starAux grid goal addr (fuel + 1) st =
      match popMin addr st.openSet with
      | none => some []
      | some (i, rest) =>
        match st.arena[i]? with
        | none => some []
        | some current =>
          if current.x == goal.1 && current.y == goal.2 then
            some (reconstruct_path st.arena i)
          else
            a_starAux grid goal addr fuel
              ((get_neighbors current grid).foldl (expandNeighbor goal i current.g)
                { arena := st.arena, openSet := rest }) := rfl

/-- The appended-node lookup fails exactly when it failed before and the new
node has a different coordinate. -/
lemma lookupCoord_append_eq_none {arena : List Node} {n : Node} {x y : Int} :
    lookupCoord (arena ++ [n]) x y = none ↔
      lookupCoord arena x y = none ∧ ¬(n.x = x ∧ n.y = y) := by
  rw [lookupCoord_append]
  cases hl : lookupCoord arena x y with
  | some m => simp
  | none =>
    by_cases hb : (n.x == x && n.y == y) = true
    · rw [if_pos hb]
      simp only [Bool.and_eq_true, beq_iff_eq] at hb
      simp [hb]
    · rw [if_neg hb]
      simp only [Bool.and_eq_true, beq_iff_eq] at hb
      simp [hb]

/-- Membership in the free-cell set. -/
lemma mem_freeCells {grid : Grid} {arena : List Node} {p : Nat × Nat} :
    p ∈ freeCells grid arena ↔
      p.1 < rowsOf grid ∧ p.2 < colsOf grid ∧
        lookupCoord arena (p.1 : Int) (p.2 : Int) = none := by
  obtain ⟨p1, p2⟩ := p
  simp [freeCells, Finset.mem_filter, Finset.mem_product, Option.isNone_iff_eq_none,
    and_assoc]

/-- Appending a node for a fresh in-bounds coordinate removes exactly that
cell from the free set. -/
lemma freeCells_append {grid : Grid} {arena : List Node} {n : Node}
    (hx0 : 0 ≤ n.x) (hxr : n.x < (rowsOf grid : Int))
    (hy0 : 0 ≤ n.y) (hyc : n.y < (colsOf grid : Int))
    (habs : lookupCoord arena n.x n.y = none) :
    freeCells grid (arena ++ [n]) =
      (freeCells grid arena).erase (n.x.toNat, n.y.toNat) ∧
      (n.x.toNat, n.y.toNat) ∈ freeCells grid arena := by
  have hxx : ((n.x.toNat : Int)) = n.x := Int.toNat_of_nonneg hx0
  have hyy : ((n.y.toNat : Int)) = n.y := Int.toNat_of_nonneg hy0
  constructor
  · ext p
    obtain ⟨p1, p2⟩ := p
    rw [Finset.mem_erase, mem_freeCells, mem_freeCells, lookupCoord_append_eq_none]
    constructor
    · rintro ⟨h1, h2, h3, h4⟩
      refine ⟨?_, h1, h2, h3⟩
      intro he
      rw [Prod.mk.injEq] at he
      exact h4 ⟨by omega, by omega⟩
    · rintro ⟨hne, h1, h2, h3⟩
      refine ⟨h1, h2, h3, ?_⟩
      rintro ⟨ha, hb⟩
      apply hne
      rw [Prod.mk.injEq]
      exact ⟨by omega, by omega⟩
  · rw [mem_freeCells]
    refine ⟨by omega, by omega, ?_⟩
    simp only at hxx hyy ⊢
    rw [hxx, hyy]
    exact habs

/-- Processing one generated neighbor never changes the measure: a push grows
the open set by one and shrinks the free set by one, a skip changes nothing. -/
lemma meas_expandNeighbor {grid : Grid} {goal : Coord} {i curG : Nat} {st : AState}
    {nb : Node} (hg : nb.g = 0) (hok : okCell grid nb.x nb.y = true) :
    meas grid (expandNeighbor goal i curG st nb) = meas grid st := by
  have hok' := hok
  simp only [okCell, Bool.and_eq_true, decide_eq_true_eq] at hok'
  obtain ⟨⟨⟨⟨hx0, hxr⟩, hy0⟩, hyc⟩, _⟩ := hok'
  unfold expandNeighbor
  by_cases hcond : ((lookupCoord st.arena nb.x nb.y).isNone || decide (curG + 1 < nb.g)) = true
  · rw [if_pos hcond]
    have habs : lookupCoord st.arena nb.x nb.y = none := by
      rcases Bool.or_eq_true_iff.mp hcond with h | h
      · exact Option.isNone_iff_eq_none.mp h
      · rw [hg] at h; simp at h
    obtain ⟨herase, hmem⟩ :=
      @freeCells_append grid st.arena
        { x := nb.x, y := nb.y, g := curG + 1,
          h := heuristic nb (mkNode goal.1 goal.2 0 0 none),
          f := curG + 1 + heuristic nb (mkNode goal.1 goal.2 0 0 none),
          parent := some i }
        hx0 hxr hy0 hyc habs
    simp only [meas, List.length_append, List.length_singleton]
    rw [herase, Finset.card_erase_of_mem hmem]
    have hpos : 0 < (freeCells grid st.arena).card := Finset.card_pos.mpr ⟨_, hmem⟩
    omega
  · rw [if_neg hcond]

/-- Folding the neighbor processing over any neighbor list keeps the measure. -/
lemma meas_fold {grid : Grid} {goal : Coord} {i curG : Nat} (l : List Node)
    (hl : ∀ nb ∈ l, nb.g = 0 ∧ okCell grid nb.x nb.y = true) :
    ∀ st : AState, meas grid (l.foldl (expandNeighbor goal i curG) st) = meas grid st := by
  induction l with
  | nil => intro st; rfl
  | cons nb t ih =>
    intro st
    simp only [List.foldl_cons]
    rw [ih (fun x hx => hl x (List.mem_cons_of_mem _ hx)),
      meas_expandNeighbor (hl nb (List.mem_cons_self _ _)).1
        (hl nb (List.mem_cons_self _ _)).2]

/-- With fuel exceeding the measure, the main loop finishes within fuel. -/
lemma a_starAux_isSome (grid : Grid) (goal : Coord) (addr : Nat → Nat) :
    ∀ fuel st, meas grid st < fuel → (a_starAux grid goal addr fuel st).isSome = true := by
  intro fuel
  induction fuel with
  | zero => intro st h; exact absurd h (Nat.not_lt_zero _)
  | succ fuel ih =>
    intro st h
    rw [a_starAux_succ]
    cases hp : popMin addr st.openSet with
    | none => simp
    | some p =>
      obtain ⟨i, rest⟩ := p
      cases hg : st.arena[i]? with
      | none => simp [hg]
      | some current =>
        by_cases hgoal : (current.x == goal.1 && current.y == goal.2) = true
        · simp [hg, hgoal]
        · simp only [hg]
          rw [if_neg hgoal]
          apply ih
          have hlen := popMin_length addr st.openSet i rest hp
          have hmf := @meas_fold grid goal i current.g
            (get_neighbors current grid)
            (fun nb hnb => ⟨(mem_get_neighbors hnb).1, (mem_get_neighbors hnb).2.2.1⟩)
            { arena := st.arena, openSet := rest }
          rw [hmf]
          simp only [meas] at h ⊢
          omega

/-- C4: confirmed.  For every grid (also empty or ragged), start, goal and
address order, the main loop terminates: with fuel `rows * cols + 2` - the
fuel `a_star` passes - the loop always reaches a return, because a node is
registered and pushed only when its coordinate is absent from the registry
(the `tentative_g < neighbor->g` disjunct compares against the fresh
neighbor's `g = 0` and never fires), so the measure
`|openSet| + |unregistered in-bounds cells|` strictly decreases. -/
theorem C4_terminates (grid : Grid) (start goal : Coord) (addr : Nat → Nat) :
    (a_starAux grid goal addr (rowsOf grid * colsOf grid + 2) (initState start)).isSome
      = true := by
  apply a_starAux_isSome
  have hcard : (freeCells grid (initState start).arena).card ≤ rowsOf grid * colsOf grid := by
    refine le_trans (Finset.card_filter_le _ _) ?_
    rw [Finset.card_product]
    simp
  simp only [meas, initState, List.length_singleton] at hcard ⊢
  omega

/-- The neighbor list written out: the four candidates in the fixed order up,
down, left, right, each kept exactly when its guard passes. -/
lemma get_neighbors_explicit (node : Node) (grid : Grid) :
    get_neighbors node grid =
      (if okCell grid (node.x - 1) node.y
        then [mkNode (node.x - 1) node.y 0 0 none] else []) ++
      (if okCell grid (node.x + 1) node.y
        then [mkNode (node.x + 1) node.y 0 0 none] else []) ++
      (if okCell grid node.x (node.y - 1)
        then [mkNode node.x (node.y - 1) 0 0 none] else []) ++
      (if okCell grid node.x (node.y + 1)
        then [mkNode node.x (node.y + 1) 0 0 none] else []) := by
  rw [get_neighbors_eq_fold]
  simp only [List.foldl_cons, List.foldl_nil]
  have e1 : node.x + (-1 : Int) = node.x - 1 := by ring
  have e2 : node.y + (-1 : Int) = node.y - 1 := by ring
  have e0x : node.x + (0 : Int) = node.x := by ring
  have e0y : node.y + (0 : Int) = node.y := by ring
  rw [e1, e2, e0x, e0y]
  by_cases h1 : okCell grid (node.x - 1) node.y = true <;>
    by_cases h2 : okCell grid (node.x + 1) node.y = true <;>
      by_cases h3 : okCell grid node.x (node.y - 1) = true <;>
        by_cases h4 : okCell grid node.x (node.y + 1) = true <;>
          simp [h1, h2, h3, h4]

/-! ### Preservation of the search invariant -/

/-- Orthogonal adjacency is symmetric. -/
lemma adjC_symm {a b : Coord} (h : adjC a b) : adjC b a := by
  unfold adjC at h ⊢
  omega

/-- The invariant holds initially. -/
lemma inv_init (grid : Grid) (start : Coord) : Inv grid start (initState start) := by
  refine ⟨rfl, ?_, ?_, ?_⟩
  · intro i n hn hi
    have hlen := (List.getElem?_eq_some.mp hn).1
    simp only [initState, List.length_singleton] at hlen
    omega
  · intro i j ni nj hi hj _ _
    have h1 := (List.getElem?_eq_some.mp hi).1
    have h2 := (List.getElem?_eq_some.mp hj).1
    simp only [initState, List.length_singleton] at h1 h2
    omega
  · intro i n hn
    have h1 := (List.getElem?_eq_some.mp hn).1
    simp only [initState, List.length_singleton] at h1
    have hi0 : i = 0 := by omega
    subst hi0
    simp only [initState, List.getElem?_cons_zero, Option.some.injEq] at hn
    subst hn
    exact Relation.ReflTransGen.refl

/-- Appending preserves lookups below the old length. -/
lemma getElem?_append_lt {α : Type} {l l' : List α} {n : Nat} (h : n < l.length) :
    (l ++ l')[n]? = l[n]? := by
  rw [List.getElem?_append, if_pos h]

/-- Processing one generated neighbor preserves the invariant, and keeps the
popped node in place. -/
lemma inv_expand {grid : Grid} {start goal : Coord} {st : AState} {i : Nat} {cur : Node}
    {nb : Node} (hnb : nb ∈ get_neighbors cur grid)
    (hinv : Inv grid start st) (hcur : st.arena[i]? = some cur) :
    Inv grid start (expandNeighbor goal i cur.g st nb) ∧
      (expandNeighbor goal i cur.g st nb).arena[i]? = some cur := by
  obtain ⟨hg0, hpar, hok, hadj⟩ := mem_get_neighbors hnb
  unfold expandNeighbor
  by_cases hcond : ((lookupCoord st.arena nb.x nb.y).isNone || decide (cur.g + 1 < nb.g)) = true
  case neg => rw [if_neg hcond]; exact ⟨hinv, hcur⟩
  case pos =>
    rw [if_pos hcond]
    have habs : lookupCoord st.arena nb.x nb.y = none := by
      rcases Bool.or_eq_true_iff.mp hcond with h | h
      · exact Option.isNone_iff_eq_none.mp h
      · rw [hg0] at h; simp at h
    have hi : i < st.arena.length := (List.getElem?_eq_some.mp hcur).1
    have h0 : 0 < st.arena.length := (List.getElem?_eq_some.mp hinv.root).1
    set newNode : Node :=
      { x := nb.x, y := nb.y, g := cur.g + 1,
        h := heuristic nb (mkNode goal.1 goal.2 0 0 none),
        f := cur.g + 1 + heuristic nb (mkNode goal.1 goal.2 0 0 none),
        parent := some i } with hnew
    have hkeep : ∀ k, k < st.arena.length →
        (st.arena ++ [newNode])[k]? = st.arena[k]? := fun k hk => getElem?_append_lt hk
    have hlast : (st.arena ++ [newNode])[st.arena.length]? = some newNode :=
      List.getElem?_concat_length st.arena newNode
    have hsplit : ∀ (k : Nat) (n' : Node), (st.arena ++ [newNode])[k]? = some n' →
        (k < st.arena.length ∧ st.arena[k]? = some n') ∨
          (k = st.arena.length ∧ n' = newNode) := by
      intro k n' hk
      have hklen := (List.getElem?_eq_some.mp hk).1
      rw [List.length_append, List.length_singleton] at hklen
      by_cases hcase : k < st.arena.length
      · exact Or.inl ⟨hcase, by rw [← hkeep k hcase]; exact hk⟩
      · have hke : k = st.arena.length := by omega
        subst hke
        rw [hlast] at hk
        exact Or.inr ⟨rfl, (Option.some.injEq _ _).mp hk.symm⟩
    constructor
    · refine ⟨?_, ?_, ?_, ?_⟩
      · show (st.arena ++ [newNode])[0]? = _
        rw [hkeep 0 h0]
        exact hinv.root
      · intro k n' hk hkne
        rcases hsplit k n' hk with ⟨hklt, hold⟩ | ⟨hkeq, hneq⟩
        · obtain ⟨j, m, hj, hjpar, hjget, hjadj, hjok, hjg⟩ :=
            hinv.parentStep k n' hold hkne
          exact ⟨j, m, hj, hjpar, by rw [hkeep j (lt_trans hj hklt)]; exact hjget,
            hjadj, hjok, hjg⟩
        · subst hkeq; subst hneq
          exact ⟨i, cur, hi, rfl, by rw [hkeep i hi]; exact hcur, hadj, hok, rfl⟩
      · intro k l nk nl hk hl hx hy
        rcases hsplit k nk hk with ⟨hklt, holdk⟩ | ⟨hkeq, hkn⟩ <;>
          rcases hsplit l nl hl with ⟨hllt, holdl⟩ | ⟨hleq, hln⟩
        · exact hinv.uniq k l nk nl holdk holdl hx hy
        · subst hln
          exact absurd ⟨hx, hy⟩ (lookupCoord_eq_none habs nk (List.getElem?_mem holdk))
        · subst hkn
          exact absurd ⟨hx.symm, hy.symm⟩
            (lookupCoord_eq_none habs nl (List.getElem?_mem holdl))
        · omega
      · intro k n' hk
        rcases hsplit k n' hk with ⟨hklt, hold⟩ | ⟨hkeq, hneq⟩
        · exact hinv.reachAll k n' hold
        · subst hneq
          exact Relation.ReflTransGen.tail (hinv.reachAll i cur hcur) ⟨hadj, hok⟩
    · show (st.arena ++ [newNode])[i]? = some cur
      rw [hkeep i hi]
      exact hcur

/-- Folding neighbor processing over any sub-list of the generated neighbors
preserves the invariant. -/
lemma inv_fold {grid : Grid} {start goal : Coord} {cur : Node} {i : Nat} :
    ∀ (l : List Node), (∀ nb ∈ l, nb ∈ get_neighbors cur grid) →
      ∀ st : AState, Inv grid start st → st.arena[i]? = some cur →
        Inv grid start (l.foldl (expandNeighbor goal i cur.g) st) := by
  intro l
  induction l with
  | nil => intro _ st hinv _; exact hinv
  | cons nb t ih =>
    intro hmem st hinv hcur
    simp only [List.foldl_cons]
    obtain ⟨hinv', hcur'⟩ := inv_expand (hmem nb (List.mem_cons_self _ _)) hinv hcur
    exact ih (fun x hx => hmem x (List.mem_cons_of_mem _ hx)) _ hinv' hcur'

/-- The invariant only talks about the arena, so it survives an open-set
replacement. -/
lemma inv_openSet {grid : Grid} {start : Coord} {st : AState} (hinv : Inv grid start st)
    (rest : List Nat) : Inv grid start { arena := st.arena, openSet := rest } :=
  ⟨hinv.root, hinv.parentStep, hinv.uniq, hinv.reachAll⟩

/-! ### What a reconstructed path looks like -/

/-- One-step unfolding of the parent walk. -/
lemma reconstruct_walk_succ (arena : List Node) (fuel : Nat) (i : Nat) :
    reconstruct_walk arena (fuel + 1) (some i) =
      match arena[i]? with
      | none => []
      | some n => (n.x, n.y) :: reconstruct_walk arena fuel n.parent := rfl

/-- Under the invariant, the parent walk from slot `i` (with any fuel
exceeding `i`) yields a list that starts at slot `i`'s cell, ends at the start
cell, steps only between orthogonally adjacent cells, consists of in-bounds
walkable cells except possibly the final start cell, repeats no coordinate,
and draws all its cells from slots at most `i`. -/
lemma reconstruct_walk_spec {grid : Grid} {start : Coord} {st : AState}
    (hinv : Inv grid start st) :
    ∀ i, ∀ fuel, i < fuel → ∀ n, st.arena[i]? = some n →
      (reconstruct_walk st.arena fuel (some i)).head? = some (n.x, n.y) ∧
      (reconstruct_walk st.arena fuel (some i)).getLast? = some start ∧
      List.Chain' adjC (reconstruct_walk st.arena fuel (some i)) ∧
      (∀ c ∈ (reconstruct_walk st.arena fuel (some i)).dropLast,
        okCell grid c.1 c.2 = true) ∧
      (reconstruct_walk st.arena fuel (some i)).Nodup ∧
      (∀ c ∈ reconstruct_walk st.arena fuel (some i),
        ∃ (k : Nat) (nk : Node), k ≤ i ∧ st.arena[k]? = some nk ∧ c = (nk.x, nk.y)) := by
  intro i
  induction i using Nat.strong_induction_on with
  | _ i ih =>
    intro fuel hfuel n hn
    obtain ⟨fuel, rfl⟩ : ∃ f, fuel = f + 1 := ⟨fuel - 1, by omega⟩
    rw [reconstruct_walk_succ]
    simp only [hn]
    by_cases hi0 : i = 0
    · subst hi0
      have hroot := hinv.root
      rw [hn] at hroot
      have hn0 : n = mkNode start.1 start.2 0 0 none := by
        exact (Option.some.injEq _ _).mp hroot
      subst hn0
      simp only [mkNode, reconstruct_walk]
      refine ⟨rfl, rfl, List.chain'_singleton _, by simp, by simp, ?_⟩
      intro c hc
      simp only [List.mem_singleton] at hc
      exact ⟨0, _, le_refl 0, hn, hc⟩
    · obtain ⟨j, m, hj, hparent, hgetj, hadjm, hokm, hgm⟩ := hinv.parentStep i n hn hi0
      rw [hparent]
      have hjf : j < fuel := by omega
      obtain ⟨ihhead, ihlast, ihchain, ihdrop, ihnodup, ihmem⟩ := ih j hj fuel hjf m hgetj
      obtain ⟨c, t, hct⟩ : ∃ c t, reconstruct_walk st.arena fuel (some j) = c :: t := by
        cases hE : reconstruct_walk st.arena fuel (some j) with
        | nil => rw [hE] at ihhead; simp at ihhead
        | cons c t => exact ⟨c, t, rfl⟩
      rw [hct] at ihhead ihlast ihchain ihdrop ihnodup ihmem ⊢
      have hc : c = (m.x, m.y) := by simpa using ihhead
      refine ⟨rfl, ?_, ?_, ?_, ?_, ?_⟩
      · rw [List.getLast?_cons_cons]
        exact ihlast
      · rw [List.chain'_cons]
        refine ⟨?_, ihchain⟩
        rw [hc]
        exact adjC_symm hadjm
      · intro q hq
        rw [List.dropLast_cons₂, List.mem_cons] at hq
        rcases hq with hq | hq
        · subst hq; exact hokm
        · exact ihdrop q hq
      · refine List.Nodup.cons ?_ ihnodup
        intro hmem'
        obtain ⟨k, nk, hk, hkget, hkc⟩ := ihmem _ hmem'
        have hxy : nk.x = n.x ∧ nk.y = n.y := by
          rw [Prod.mk.injEq] at hkc
          exact ⟨hkc.1.symm, hkc.2.symm⟩
        have := hinv.uniq k i nk n hkget hn hxy.1 hxy.2
        omega
      · intro q hq
        rcases List.mem_cons.mp hq with hq | hq
        · exact ⟨i, n, le_refl i, hn, hq⟩
        · obtain ⟨k, nk, hk, hkget, hkc⟩ := ihmem q hq
          exact ⟨k, nk, le_trans hk (le_of_lt hj), hkget, hkc⟩

/-! ### Shape of every result of the main loop -/

/-- Any result the main loop produces is either the empty path or a path from
start to goal consisting of orthogonally adjacent steps, walkable except
possibly at its first cell, and without repeated coordinates. -/
lemma aux_result {grid : Grid} {start goal : Coord} {addr : Nat → Nat} :
    ∀ (fuel : Nat) (st : AState) (res : List Coord), Inv grid start st →
      a_starAux grid goal addr fuel st = some res →
      res = [] ∨
        (res.head? = some start ∧ res.getLast? = some goal ∧
          List.Chain' adjC res ∧ (∀ c ∈ res.tail, okCell grid c.1 c.2 = true) ∧
          res.Nodup) := by
  intro fuel
  induction fuel with
  | zero => intro st res _ h; simp [a_starAux] at h
  | succ fuel ih =>
    intro st res hinv h
    rw [a_starAux_succ] at h
    cases hp : popMin addr st.openSet with
    | none =>
      rw [hp] at h
      simp only [Option.some.injEq] at h
      exact Or.inl h.symm
    | some p =>
      obtain ⟨i, rest⟩ := p
      rw [hp] at h
      cases hg : st.arena[i]? with
      | none =>
        simp only [hg, Option.some.injEq] at h
        exact Or.inl h.symm
      | some current =>
        simp only [hg] at h
        by_cases hgoal : (current.x == goal.1 && current.y == goal.2) = true
        · rw [if_pos hgoal] at h
          simp only [Option.some.injEq] at h
          subst h
          right
          have hi : i < st.arena.length := (List.getElem?_eq_some.mp hg).1
          obtain ⟨whead, wlast, wchain, wdrop, wnodup, _⟩ :=
            reconstruct_walk_spec hinv i (i + 1) (by omega) current hg
          have hcg : (current.x, current.y) = goal := by
            simp only [Bool.and_eq_true, beq_iff_eq] at hgoal
            rw [Prod.mk.injEq]
            exact hgoal
          unfold reconstruct_path
          refine ⟨?_, ?_, ?_, ?_, ?_⟩
          · rw [List.head?_reverse]
            exact wlast
          · rw [List.getLast?_reverse, whead, hcg]
          · rw [List.chain'_reverse]
            exact List.Chain'.imp (fun a b hab => adjC_symm hab) wchain
          · intro c hc
            rw [List.tail_reverse, List.mem_reverse] at hc
            exact wdrop c hc
          · rw [List.nodup_reverse]
            exact wnodup
        · rw [if_neg hgoal] at h
          exact ih _ res
            (inv_fold (get_neighbors current grid) (fun _ hx => hx)
              { arena := st.arena, openSet := rest } (inv_openSet hinv rest) hg) h

/-- If the goal is not reachable in the `get_neighbors` graph, every result
the main loop can produce is the empty path. -/
lemma aux_unreach {grid : Grid} {start goal : Coord} {addr : Nat → Nat}
    (hnr : ¬Reach grid start goal) :
    ∀ (fuel : Nat) (st : AState) (res : List Coord), Inv grid start st →
      a_starAux grid goal addr fuel st = some res → res = [] := by
  intro fuel
  induction fuel with
  | zero => intro st res _ h; simp [a_starAux] at h
  | succ fuel ih =>
    intro st res hinv h
    rw [a_starAux_succ] at h
    cases hp : popMin addr st.openSet with
    | none =>
      rw [hp] at h
      simp only [Option.some.injEq] at h
      exact h.symm
    | some p =>
      obtain ⟨i, rest⟩ := p
      rw [hp] at h
      cases hg : st.arena[i]? with
      | none =>
        simp only [hg, Option.some.injEq] at h
        exact h.symm
      | some current =>
        simp only [hg] at h
        by_cases hgoal : (current.x == goal.1 && current.y == goal.2) = true
        · exfalso
          apply hnr
          have hr := hinv.reachAll i current hg
          have hcg : (current.x, current.y) = goal := by
            simp only [Bool.and_eq_true, beq_iff_eq] at hgoal
            rw [Prod.mk.injEq]
            exact hgoal
          rw [hcg] at hr
          exact hr
        · rw [if_neg hgoal] at h
          exact ih _ res
            (inv_fold (get_neighbors current grid) (fun _ hx => hx)
              { arena := st.arena, openSet := rest } (inv_openSet hinv rest) hg) h

/-! ### The checked-access model agrees with the plain one on well-formed
grids -/

/-- One-step unfolding of the checked main loop at positive fuel. -/
lemma a_starAuxC_succ (grid : Grid) (goal : Coord) (addr : Nat → Nat) (fuel : Nat)
    (st : AState) :
    a_starAuxC grid goal addr (fuel + 1) st =
      match popMin addr st.openSet with
      | none => some (some [])
      | some (i, rest) =>
        match st.arena[i]? with
        | none => some (some [])
        | some current =>
          if current.x == goal.1 && current.y == goal.2 then
            some (some (reconstruct_path st.arena i))
          else
            match get_neighborsC current grid with
            | none => none
            | some nbs =>
              a_starAuxC grid goal addr fuel
                (nbs.foldl (expandNeighbor goal i current.g)
                  { arena := st.arena, openSet := rest }) := rfl

/-- Folding an option-bind step over a list, when every step succeeds. -/
lemma foldl_bind_eq {α β : Type} (f : β → α → Option β) (g : β → α → β)
    (l : List α) (h : ∀ (b : β) (a : α), a ∈ l → f b a = some (g b a)) :
    ∀ b, l.foldl (fun acc a => acc.bind (fun x => f x a)) (some b) =
      some (l.foldl g b) := by
  induction l with
  | nil => intro b; rfl
  | cons a t ih =>
    intro b
    simp only [List.foldl_cons, Option.some_bind]
    rw [h b a (List.mem_cons_self _ _)]
    exact ih (fun b' a' ha' => h b' a' (List.mem_cons_of_mem _ ha')) (g b a)

/-- On a non-empty rectangular grid, the checked neighbor generation performs
no out-of-bounds access and agrees with the plain one. -/
lemma get_neighborsC_eq {grid : Grid} (hne : grid ≠ []) (hrect : Rectangular grid)
    (node : Node) : get_neighborsC node grid = some (get_neighbors node grid) := by
  obtain ⟨row0, rest, rfl⟩ : ∃ r t, grid = r :: t := by
    cases grid with
    | nil => exact absurd rfl hne
    | cons r t => exact ⟨r, t, rfl⟩
  have hcols : colsOf (row0 :: rest) = row0.length := by
    simp [colsOf, List.getElem?_cons_zero]
  have hrows : rowsOf (row0 :: rest) = (row0 :: rest).length := rfl
  rw [get_neighbors_eq_fold]
  unfold get_neighborsC
  simp only [List.getElem?_cons_zero]
  apply foldl_bind_eq
  intro b d _
  by_cases hguard : (decide (0 ≤ node.x + d.1) &&
      decide (node.x + d.1 < ((row0 :: rest).length : Int)) &&
      decide (0 ≤ node.y + d.2) && decide (node.y + d.2 < (row0.length : Int))) = true
  · rw [if_pos hguard]
    have hg' := hguard
    simp only [Bool.and_eq_true, decide_eq_true_eq] at hg'
    obtain ⟨⟨⟨hx0, hxr⟩, hy0⟩, hyc⟩ := hg'
    have hxlt : (node.x + d.1).toNat < (row0 :: rest).length := by omega
    have hrow : (row0 :: rest)[(node.x + d.1).toNat]? =
        some ((row0 :: rest)[(node.x + d.1).toNat]) := List.getElem?_eq_getElem hxlt
    have hrowmem : (row0 :: rest)[(node.x + d.1).toNat] ∈ (row0 :: rest) :=
      List.getElem_mem hxlt
    have hrlen : ((row0 :: rest)[(node.x + d.1).toNat]).length = row0.length := by
      have := hrect _ hrowmem
      rw [hcols] at this
      exact this
    have hylt : (node.y + d.2).toNat < ((row0 :: rest)[(node.x + d.1).toNat]).length := by
      omega
    have hcell : ((row0 :: rest)[(node.x + d.1).toNat])[(node.y + d.2).toNat]? =
        some (((row0 :: rest)[(node.x + d.1).toNat])[(node.y + d.2).toNat]) :=
      List.getElem?_eq_getElem hylt
    have hread : readCellC (row0 :: rest) (node.x + d.1) (node.y + d.2) =
        some (((row0 :: rest)[(node.x + d.1).toNat])[(node.y + d.2).toNat]) := by
      unfold readCellC
      rw [if_pos (by simp only [Bool.and_eq_true, decide_eq_true_eq]; omega)]
      rw [hrow, Option.some_bind, hcell]
    rw [hread]
    have hok : okCell (row0 :: rest) (node.x + d.1) (node.y + d.2) =
        (((row0 :: rest)[(node.x + d.1).toNat])[(node.y + d.2).toNat] == 0) := by
      unfold okCell
      rw [hrows, hcols, hguard, Bool.true_and]
      unfold cellIsZero
      rw [hrow, Option.getD_some, hcell]
      rfl
    rw [hok]
  · rw [if_neg hguard]
    have hg0 := Bool.eq_false_iff.mpr hguard
    have hok : okCell (row0 :: rest) (node.x + d.1) (node.y + d.2) = false := by
      unfold okCell
      rw [hrows, hcols, hg0, Bool.false_and]
    rw [hok]
    rfl

/-- On a non-empty rectangular grid the checked main loop never performs an
out-of-bounds access, at any fuel and from any state, and agrees with the
plain loop. -/
lemma a_starAuxC_eq {grid : Grid} (hne : grid ≠ []) (hrect : Rectangular grid)
    (goal : Coord) (addr : Nat → Nat) :
    ∀ (fuel : Nat) (st : AState),
      a_starAuxC grid goal addr fuel st = some (a_starAux grid goal addr fuel st) := by
  intro fuel
  induction fuel with
  | zero => intro st; rfl
  | succ fuel ih =>
    intro st
    rw [a_starAux_succ, a_starAuxC_succ]
    cases hp : popMin addr st.openSet with
    | none => rfl
    | some p =>
      obtain ⟨i, rest⟩ := p
      cases hg : st.arena[i]? with
      | none => simp [hg]
      | some current =>
        simp only [hg]
        by_cases hgoal : (current.x == goal.1 && current.y == goal.2) = true
        · rw [if_pos hgoal, if_pos hgoal]
        · rw [if_neg hgoal, if_neg hgoal]
          rw [get_neighborsC_eq hne hrect current]
          exact ih _

/-! ### Claim theorems: concrete runs -/

/-- C1: refuted on the code.  On the fully walkable 3 × 2 grid `gridA`, with
the (legal) allocator behaviour `addrDesc`, `a_star` from (2,0) to (0,0)
returns a path of 4 steps, although a valid walkable 2-step route exists, so
the returned length minus one is not the true shortest-path step count.  The
pointer-ordered open set and the never-firing improvement test cause this. -/
theorem C1_suboptimal_path :
    a_star gridA (2, 0) (0, 0) addrDesc = [(2, 0), (2, 1), (1, 1), (0, 1), (0, 0)] ∧
    (a_star gridA (2, 0) (0, 0) addrDesc).length - 1 = 4 ∧
    IsStepPath gridA (2, 0) (0, 0) [(2, 0), (1, 0), (0, 0)] = true ∧
    ([(2, 0), (1, 0), (0, 0)] : List Coord).length - 1 = 2 := by
  decide

/-- C2: refuted on the code.  In the same run as C1, at the second pop the open
set holds arena slots 1 (for cell (1,0), `f = 2`) and 2 (for cell (2,1),
`f = 4`); the pop - which follows `greater<Node *>`, i.e. machine addresses -
removes slot 2, whose `f` is strictly larger than the `f` of slot 1 still in
the queue.  The popped node therefore does not minimise `f`. -/
theorem C2_pop_not_min_f :
    popMin addrDesc (runSteps gridA (0, 0) addrDesc 1 (initState (2, 0))).openSet =
      some (2, [1]) ∧
    fAt (runSteps gridA (0, 0) addrDesc 1 (initState (2, 0))) 2 = some 4 ∧
    fAt (runSteps gridA (0, 0) addrDesc 1 (initState (2, 0))) 1 = some 2 := by
  decide

/-- C3: refuted on the code.  Searching `gridA` from (2,0) for the unreachable
goal (5,5) under `addrDesc`: after five iterations the registry records
`g = 4` for cell (0,0), and the next pop removes the node for cell (1,0) with
`g = 1`, so its neighbor (0,0) gets `tentative_g = 2 < 4`.  The claim demands a
push and a registry overwrite; the code compares `tentative_g` with the fresh
neighbor's default `g = 0` instead, so the sixth iteration leaves the arena
unchanged and pushes nothing - the registry keeps the worse `g = 4`. -/
theorem C3_improvement_ignored :
    regG (runSteps gridA (5, 5) addrDesc 5 (initState (2, 0))) 0 0 = some 4 ∧
    popMin addrDesc (runSteps gridA (5, 5) addrDesc 5 (initState (2, 0))).openSet =
      some (1, []) ∧
    gAt (runSteps gridA (5, 5) addrDesc 5 (initState (2, 0))) 1 = some 1 ∧
    runSteps gridA (5, 5) addrDesc 6 (initState (2, 0)) =
      { arena := (runSteps gridA (5, 5) addrDesc 5 (initState (2, 0))).arena,
        openSet := [] } := by
  decide

/-- C5, counterexample: the claim - every consecutive pair of a returned
non-empty path consists of two walkable cells - fails when the start cell is
blocked, because the code never validates the start.  On grid `[[1, 0]]` with
blocked start (0,0) the program returns the path [(0,0), (0,1)] whose first
cell has grid value 1. -/
theorem C5_blocked_start_counterexample :
    a_star [[1, 0]] (0, 0) (0, 1) (fun i => i) = [(0, 0), (0, 1)] ∧
    okCell [[1, 0]] 0 0 = false ∧
    cellIsZero [[1, 0]] 0 0 = false := by
  decide

/-- C6: confirmed.  For every grid, every address order and `start = goal`,
the path returned is exactly `[start]`: the first pop removes the start node
(`g = 0`) and the goal check succeeds immediately. -/
theorem C6_start_eq_goal (grid : Grid) (start : Coord) (addr : Nat → Nat) :
    a_star grid start start addr = [start] :=
  a_star_self grid start addr

/-- C9: confirmed.  For every coordinate `p` - also out of bounds or blocked -
`a_star grid p p addr = [p]`, and the result does not depend on the grid at
all, because the goal-equality check on the popped start node happens before
any grid cell is read. -/
theorem C9_self_goal_no_grid_read (grid : Grid) (p : Coord) (addr : Nat → Nat) :
    a_star grid p p addr = [p] ∧ a_star grid p p addr = a_star [] p p addr := by
  refine ⟨a_star_self grid p addr, ?_⟩
  rw [a_star_self grid p addr, a_star_self [] p addr]

/-- C5, amended claim, proved: whenever `a_star` returns a non-empty path,
every consecutive pair of its coordinates is orthogonally adjacent, every
coordinate except possibly the first (the never-validated start) is an
in-bounds walkable cell, and no coordinate occurs more than once. -/
theorem C5_amended_path_shape (grid : Grid) (s g : Coord) (addr : Nat → Nat)
    (h : a_star grid s g addr ≠ []) :
    List.Chain' adjC (a_star grid s g addr) ∧
    (∀ c ∈ (a_star grid s g addr).tail, okCell grid c.1 c.2 = true) ∧
    (a_star grid s g addr).Nodup := by
  unfold a_star at h ⊢
  cases hres : a_starAux grid g addr (rowsOf grid * colsOf grid + 2) (initState s) with
  | none => rw [hres] at h; simp at h
  | some res =>
    rw [hres] at h
    simp only [Option.getD_some] at h ⊢
    rcases aux_result _ _ res (inv_init grid s) hres with hnil | hprops
    · exact absurd hnil h
    · exact ⟨hprops.2.2.1, hprops.2.2.2.1, hprops.2.2.2.2⟩

/-- Witness for C5's amended claim: on the walkable 1 × 2 grid the returned
path from (0,0) to (0,1) is non-empty, and the theorem applies to it. -/
theorem C5_amended_witness :
    a_star [[0, 0]] (0, 0) (0, 1) (fun i => i) ≠ [] ∧
    List.Chain' adjC (a_star [[0, 0]] (0, 0) (0, 1) (fun i => i)) ∧
    (a_star [[0, 0]] (0, 0) (0, 1) (fun i => i)).Nodup :=
  ⟨by decide,
    (C5_amended_path_shape [[0, 0]] (0, 0) (0, 1) (fun i => i) (by decide)).1,
    (C5_amended_path_shape [[0, 0]] (0, 0) (0, 1) (fun i => i) (by decide)).2.2⟩

/-- C7: confirmed.  For every input the result is either the empty sequence or
a complete start-to-goal path (it begins at the start and ends at the goal);
and whenever the goal is unreachable in the `get_neighbors` graph the result
is the empty sequence.  The model is a total function: no other failure signal
exists. -/
theorem C7_empty_or_complete (grid : Grid) (s g : Coord) (addr : Nat → Nat) :
    (a_star grid s g addr = [] ∨
      ((a_star grid s g addr).head? = some s ∧ (a_star grid s g addr).getLast? = some g)) ∧
    (¬Reach grid s g → a_star grid s g addr = []) := by
  constructor
  · unfold a_star
    cases hres : a_starAux grid g addr (rowsOf grid * colsOf grid + 2) (initState s) with
    | none => simp
    | some res =>
      simp only [Option.getD_some]
      rcases aux_result _ _ res (inv_init grid s) hres with hnil | hprops
      · exact Or.inl hnil
      · exact Or.inr ⟨hprops.1, hprops.2.1⟩
  · intro hnr
    unfold a_star
    cases hres : a_starAux grid g addr (rowsOf grid * colsOf grid + 2) (initState s) with
    | none => simp
    | some res =>
      simp only [Option.getD_some]
      exact aux_unreach hnr _ _ res (inv_init grid s) hres

/-- Witness for C7 on the spec's own scenario: on grid `[[0,1],[1,0]]` the
goal (1,1) is orthogonally unreachable from (0,0), and the returned path is
empty. -/
theorem C7_witness :
    a_star [[0, 1], [1, 0]] (0, 0) (1, 1) (fun i => i) = [] := by
  refine (C7_empty_or_complete [[0, 1], [1, 0]] (0, 0) (1, 1) (fun i => i)).2 ?_
  intro hr
  rcases Relation.ReflTransGen.cases_head hr with heq | ⟨c, hstep, _⟩
  · exact absurd heq (by decide)
  · obtain ⟨hadj, hok⟩ := hstep
    obtain ⟨c1, c2⟩ := c
    simp only [okCell, Bool.and_eq_true, decide_eq_true_eq] at hok
    obtain ⟨⟨⟨⟨h1, h2⟩, h3⟩, h4⟩, h5⟩ := hok
    simp only [rowsOf, colsOf, List.length_cons, List.length_nil] at h2 h4
    norm_num at h2 h4
    interval_cases c1 <;> interval_cases c2 <;> revert hadj h5 <;> decide

/-- C8: confirmed (on well-formed grids, where the C++ accesses are defined:
non-empty and rectangular).  `get_neighbors` returns the four orthogonal
candidates in the fixed order up, down, left, right, each kept exactly when it
is in bounds and walkable; hence at most 4 neighbors, and a coordinate's fresh
node is in the result exactly when the coordinate is orthogonally adjacent, in
bounds and walkable. -/
theorem C8_neighbors_exact (grid : Grid) (node : Node)
    (hne : grid ≠ []) (hrect : Rectangular grid) :
    (get_neighbors node grid =
      (if okCell grid (node.x - 1) node.y
        then [mkNode (node.x - 1) node.y 0 0 none] else []) ++
      (if okCell grid (node.x + 1) node.y
        then [mkNode (node.x + 1) node.y 0 0 none] else []) ++
      (if okCell grid node.x (node.y - 1)
        then [mkNode node.x (node.y - 1) 0 0 none] else []) ++
      (if okCell grid node.x (node.y + 1)
        then [mkNode node.x (node.y + 1) 0 0 none] else [])) ∧
    (get_neighbors node grid).length ≤ 4 ∧
    (∀ c : Coord, mkNode c.1 c.2 0 0 none ∈ get_neighbors node grid ↔
      (adjC (node.x, node.y) c ∧ okCell grid c.1 c.2 = true)) := by
  refine ⟨get_neighbors_explicit node grid, ?_, ?_⟩
  · rw [get_neighbors_explicit]
    by_cases h1 : okCell grid (node.x - 1) node.y = true <;>
      by_cases h2 : okCell grid (node.x + 1) node.y = true <;>
        by_cases h3 : okCell grid node.x (node.y - 1) = true <;>
          by_cases h4 : okCell grid node.x (node.y + 1) = true <;>
            simp [h1, h2, h3, h4]
  · intro c
    constructor
    · intro hc
      obtain ⟨_, _, hok, hadj⟩ := mem_get_neighbors hc
      exact ⟨hadj, hok⟩
    · rintro ⟨hadj, hok⟩
      rw [get_neighbors_eq_fold, mem_foldl_dirs]
      right
      unfold adjC at hadj
      simp only at hadj
      have hcases : (c.1 = node.x - 1 ∧ c.2 = node.y) ∨ (c.1 = node.x + 1 ∧ c.2 = node.y) ∨
          (c.1 = node.x ∧ c.2 = node.y - 1) ∨ (c.1 = node.x ∧ c.2 = node.y + 1) := by
        omega
      obtain ⟨hc1, hc2⟩ | ⟨hc1, hc2⟩ | ⟨hc1, hc2⟩ | ⟨hc1, hc2⟩ := hcases
      · refine ⟨(-1, 0), by simp, ?_, ?_⟩
        · show okCell grid (node.x + -1) (node.y + 0) = true
          rw [show node.x + (-1 : Int) = c.1 by omega, show node.y + (0 : Int) = c.2 by omega]
          exact hok
        · show mkNode c.1 c.2 0 0 none = mkNode (node.x + -1) (node.y + 0) 0 0 none
          rw [show node.x + (-1 : Int) = c.1 by omega, show node.y + (0 : Int) = c.2 by omega]
      · refine ⟨(1, 0), by simp, ?_, ?_⟩
        · show okCell grid (node.x + 1) (node.y + 0) = true
          rw [show node.x + (1 : Int) = c.1 by omega, show node.y + (0 : Int) = c.2 by omega]
          exact hok
        · show mkNode c.1 c.2 0 0 none = mkNode (node.x + 1) (node.y + 0) 0 0 none
          rw [show node.x + (1 : Int) = c.1 by omega, show node.y + (0 : Int) = c.2 by omega]
      · refine ⟨(0, -1), by simp, ?_, ?_⟩
        · show okCell grid (node.x + 0) (node.y + -1) = true
          rw [show node.x + (0 : Int) = c.1 by omega, show node.y + (-1 : Int) = c.2 by omega]
          exact hok
        · show mkNode c.1 c.2 0 0 none = mkNode (node.x + 0) (node.y + -1) 0 0 none
          rw [show node.x + (0 : Int) = c.1 by omega, show node.y + (-1 : Int) = c.2 by omega]
      · refine ⟨(0, 1), by simp, ?_, ?_⟩
        · show okCell grid (node.x + 0) (node.y + 1) = true
          rw [show node.x + (0 : Int) = c.1 by omega, show node.y + (1 : Int) = c.2 by omega]
          exact hok
        · show mkNode c.1 c.2 0 0 none = mkNode (node.x + 0) (node.y + 1) 0 0 none
          rw [show node.x + (0 : Int) = c.1 by omega, show node.y + (1 : Int) = c.2 by omega]

/-- The 2 × 2 walkable grid is rectangular. -/
lemma rect22 : Rectangular [[0, 0], [0, 0]] := by
  intro row hrow
  simp only [List.mem_cons, List.not_mem_nil, or_false] at hrow
  rcases hrow with rfl | rfl <;> decide

/-- Witness for C8 at the walkable 2 × 2 grid and the node at (0,0): the two
in-bounds neighbors (1,0) and (0,1) are produced, in the order down, right. -/
theorem C8_witness :
    ([[0, 0], [0, 0]] : Grid) ≠ [] ∧ Rectangular [[0, 0], [0, 0]] ∧
    (get_neighbors (mkNode 0 0 0 0 none) [[0, 0], [0, 0]] =
      [mkNode 1 0 0 0 none, mkNode 0 1 0 0 none] ∧
      (mkNode 1 0 0 0 none ∈ get_neighbors (mkNode 0 0 0 0 none) [[0, 0], [0, 0]] ↔
        (adjC (0, 0) (1, 0) ∧ okCell [[0, 0], [0, 0]] 1 0 = true))) :=
  ⟨by decide, rect22,
    by decide,
    (C8_neighbors_exact [[0, 0], [0, 0]] (mkNode 0 0 0 0 none) (by decide)
      rect22).2.2 (1, 0)⟩

/-- C10: confirmed.  On every non-empty rectangular grid, for every start and
goal - also out-of-bounds or blocked ones - and every address order, the run
in which every `vector::operator[]` access is bounds-checked (`a_starC`)
completes without any check failing (it does not return `none`) and returns
exactly the plain run's result: every read of `grid[newX][newY]` is protected
by the 0 ≤ newX < rows and 0 ≤ newY < cols guards, and the only unguarded
access, `grid[0]` for the column count, needs just non-emptiness. -/
theorem C10_no_oob_access (grid : Grid) (start goal : Coord) (addr : Nat → Nat)
    (hne : grid ≠ []) (hrect : Rectangular grid) :
    a_starC grid start goal addr = some (a_star grid start goal addr) := by
  unfold a_starC a_star
  rw [a_starAuxC_eq hne hrect]
  rfl

/-- Witness for C10: on the 2 × 2 walkable grid, with an out-of-bounds start
(5,7) and blocked-free goal, the checked run succeeds and agrees. -/
theorem C10_witness :
    a_starC [[0, 0], [0, 0]] (5, 7) (0, 0) (fun i => i) =
      some (a_star [[0, 0], [0, 0]] (5, 7) (0, 0) (fun i => i)) :=
  C10_no_oob_access [[0, 0], [0, 0]] (5, 7) (0, 0) (fun i => i) (by decide) rect22

end AStar

